import Mathlib

/-!
# BuyBotSol: the trade cycle of `src/bot.mjs`

A shallow embedding of the parts of `src/bot.mjs` that carry logic:

* the JavaScript arithmetic used on token amounts (`Number` coercion of a
  decimal string, `-`, string `+`, and the `bn.js` constructors);
* `buyTokens` (spend constants and the arguments of the buy instruction);
* `sellAllTokens` (the per-account liquidation loop);
* `runCycle` (the endless buy counter / liquidation loop).

External collaborators (RPC node, signing, submission) are represented by
explicit outcome parameters.
-/

namespace BuyBotSol

/-! ## JavaScript numbers holding integer values -/

/-- Search for the spacing of binary64 values around `n`: the least power of
two `u` (starting from the given `u`) with `n < 2 ^ 53 * u`. -/
def ulpAux : Nat → Nat → Nat → Nat
  | 0, _, u => u
  | fuel + 1, n, u => if n < 2 ^ 53 * u then u else ulpAux fuel n (2 * u)

/-- Spacing of binary64 values around the natural number `n` (1 below `2 ^ 53`,
2 below `2 ^ 54`, and so on up to the largest finite exponent). -/
def ulp (n : Nat) : Nat := ulpAux 971 n 1

/-- The binary64 value nearest to the natural number `n`, ties to the even
significand: `n` rounded to 53 significant bits (for `n` in the finite range of
binary64, which contains every unsigned 64-bit amount). -/
def roundDouble (n : Nat) : Nat :=
  let u := ulp n
  let q := n / u
  let r := n % u
  if 2 * r < u then q * u
  else if u < 2 * r then (q + 1) * u
  else if q % 2 = 0 then q * u else (q + 1) * u

/-- JavaScript `ToNumber` on the decimal string of the natural number `n`
(the coercion applied to the left operand of `amount - 1000`). -/
def toNumber (n : Nat) : Int := (roundDouble n : Nat)

/-- JavaScript `x - y` on two integer-valued numbers: the exact difference
rounded to binary64. -/
def numberSub (x y : Int) : Int :=
  let d := x - y
  if 0 ≤ d then (roundDouble d.toNat : Nat) else -((roundDouble (-d).toNat : Nat) : Int)

/-- Errors raised inside the script. -/
inductive JsError
  | assertionFailed
  | bondingCurveUndefined
  | noFirstHolder
  | globalAccountNotFound
  | invalidCurveState
  | sendFailed
  deriving DecidableEq, Repr

deriving instance DecidableEq for Except

/-! ## `bn.js` values, held as integers -/

/-- The `bn.js` constructor on a JavaScript number (`_initNumber`): the sign is
split off and the magnitude must be below `0x20000000000000 = 2 ^ 53`, otherwise
the library assertion fails. -/
def BN.ofNumber (x : Int) : Except JsError Int :=
  if x.natAbs < 2 ^ 53 then .ok x else .error .assertionFailed

/-- The `bn.js` constructor on a string of decimal digits. -/
def BN.ofString (s : List Char) : Int :=
  ((s.foldl (fun acc c => 10 * acc + (c.toNat - 48)) 0 : Nat) : Int)

/-- Decimal `toString()` of a `bn.js` value. -/
def BN.toString (x : Int) : List Char :=
  (if x < 0 then ['-'] else []) ++ Nat.toDigits 10 x.natAbs

/-! ## Bonding curve account -/

/-- The decoded bonding curve account (fields of the data model). -/
structure BondingCurveAccount where
  virtualTokenReserves : Nat
  virtualSolReserves : Nat
  realTokenReserves : Nat
  realSolReserves : Nat
  tokenTotalSupply : Nat
  complete : Bool
  deriving DecidableEq, Repr

/-- Modelled from the spec: `BondingCurveAccount.getBuyPrice` lives in
`./bounding_curve.mjs`, which is imported by `bot.mjs` but absent from the
sources. The spec (operation `priceForSpend`) gives
`tokensOut = R_tok - floor((R_sol * R_tok) / (R_sol + Δsol))` in exact integer
arithmetic, failing when `R_sol` or `R_tok` is zero or the curve is complete. -/
def BondingCurveAccount.getBuyPrice (a : BondingCurveAccount) (solLamports : Nat) :
    Except JsError Int :=
  if a.virtualSolReserves = 0 ∨ a.virtualTokenReserves = 0 ∨ a.complete = true then
    .error .invalidCurveState
  else
    .ok ((a.virtualTokenReserves : Int) -
      ((a.virtualSolReserves * a.virtualTokenReserves / (a.virtualSolReserves + solLamports) : Nat) : Int))

/-! ## `buyTokens` -/

/-- Constant `LAMPORTS_PER_SOL` of `@solana/web3.js`. -/
def LAMPORTS_PER_SOL : Nat := 1000000000

/-- Significand of the literal `0.020`: the binary64 value of the literal is
`literal_0_020 / 2 ^ 58` (the integer nearest to `2 ^ 58 / 50`). -/
def literal_0_020 : Nat := (2 ^ 58 + 25) / 50

/-- Numerator over `2 ^ 58` of the binary64 product `0.020 * LAMPORTS_PER_SOL`:
the exact product of the significands rounded to 53 significant bits. -/
def lamportsScaled : Nat := roundDouble (literal_0_020 * LAMPORTS_PER_SOL)

/-- Line 172: `const lamports = 0.020 * LAMPORTS_PER_SOL`. -/
def lamports : Nat := lamportsScaled / 2 ^ 58

/-- Line 173: `const solAmount = new BN(lamports.toString())`. -/
def solAmount : Int := BN.ofString (Nat.toDigits 10 lamports)

/-- Line 209: `const solAmountBN = new BN(solAmount.toString() + 20000)`; the
left operand of `+` is a string, so the number `20000` is converted to its
decimal string and appended. -/
def solAmountBN : Int := BN.ofString (BN.toString solAmount ++ Nat.toDigits 10 20000)

/-- Arguments of `program.instruction.buy`. -/
structure BuyInstruction where
  amount : Int
  maxSolCost : Int
  deriving DecidableEq, Repr

/-- Responses of the collaborators during one call of `buyTokens`. -/
structure BuyWorld where
  bondingCurveAccount : Option BondingCurveAccount
  firstHolder : Option Nat
  globalAccountFound : Bool
  send : Except JsError Nat

/-- Function `buyTokens` (lines 171-276): the instruction built, if any, and
the transaction id returned or the error raised. -/
def buyTokens (w : BuyWorld) : Option BuyInstruction × Except JsError Nat :=
  match w.bondingCurveAccount with
  | none => (none, .error .bondingCurveUndefined)
  | some curve =>
    match curve.getBuyPrice solAmount.toNat with
    | .error e => (none, .error e)
    | .ok buyAmount =>
      match w.firstHolder with
      | none => (none, .error .noFirstHolder)
      | some _ =>
        if w.globalAccountFound then
          let buyInstruction : BuyInstruction := { amount := buyAmount, maxSolCost := solAmountBN }
          match w.send with
          | .ok txId => (some buyInstruction, .ok txId)
          | .error e => (some buyInstruction, .error e)
        else (none, .error .globalAccountNotFound)

/-! ## `sellAllTokens` -/

/-- A parsed token account: `tokenAmount.amount` is the decimal string of an
unsigned 64-bit balance, held here as its value; `none` when the field is
missing (or empty). -/
structure TokenAccount where
  amount : Option Nat
  deriving DecidableEq, Repr

/-- Arguments of `program.instruction.sell`. -/
structure SellInstruction where
  amount : Int
  minSolOutput : Int
  deriving DecidableEq, Repr

/-- One sell whose instruction was built and handed to submission: position of
the account in the enumeration, the instruction, and whether the submission
went through. -/
structure SellAttempt where
  index : Nat
  instruction : SellInstruction
  sent : Bool
  deriving DecidableEq, Repr

/-- Line 312: `const amountToSell1 = new BN(accountInfo.tokenAmount.amount - 1000)`
for the balance `b`. -/
def amountToSell1 (b : Nat) : Except JsError Int :=
  BN.ofNumber (numberSub (toNumber b) 1000)

/-- The `for` loop of `sellAllTokens` (lines 297-380) from position `i` on.
`sendFails j` tells whether submitting the sell of the account at position `j`
is rejected. Any error inside the per-account `try` is logged and rethrown,
which leaves the loop. -/
def sellLoop (sendFails : Nat → Bool) : Nat → List TokenAccount →
    List SellAttempt × Except JsError Unit
  | _, [] => ([], .ok ())
  | i, account :: rest =>
    match account.amount with
    | none => sellLoop sendFails (i + 1) rest
    | some b =>
      if b = 0 then sellLoop sendFails (i + 1) rest
      else
        match amountToSell1 b with
        | .error e => ([], .error e)
        | .ok a =>
          let sellInstruction : SellInstruction := { amount := a, minSolOutput := 0 }
          if sendFails i then ([⟨i, sellInstruction, false⟩], .error .sendFailed)
          else
            let r := sellLoop sendFails (i + 1) rest
            (⟨i, sellInstruction, true⟩ :: r.1, r.2)

/-- Responses of the collaborators during one call of `sellAllTokens`. -/
structure SellWorld where
  tokenAccounts : List TokenAccount
  globalAccountFound : Bool
  firstHolder : Option Nat
  sendFails : Nat → Bool

/-- Function `sellAllTokens` (lines 278-385): the sells attempted and the
outcome of the call. -/
def sellAllTokens (w : SellWorld) : List SellAttempt × Except JsError Unit :=
  if w.tokenAccounts.length = 0 then ([], .ok ())
  else if w.globalAccountFound then
    match w.firstHolder with
    | none => ([], .ok ())
    | some _ => sellLoop w.sendFails 0 w.tokenAccounts
  else ([], .error .globalAccountNotFound)

/-- Sells the specification expects from a liquidation pass without failures, from
position `i` on: one per account with non-zero balance, in enumeration order,
each for the balance minus 1000 with minimum proceeds 0; none for an account
whose balance is 0 or whose token amount is missing. -/
def expectedSells (i : Nat) (accounts : List TokenAccount) : List SellAttempt :=
  (accounts.enumFrom i).filterMap fun p =>
    match p.2.amount with
    | some b => if 0 < b then some ⟨p.1, ⟨(b : Int) - 1000, 0⟩, true⟩ else none
    | none => none

/-! ## `runCycle` -/

/-- Line 387. -/
def NUM_SUCCESSFUL_BUYS_BEFORE_SELL : Nat := 2

/-- Calls that one iteration of the loop can make to the functions of the
script. `sellAllTokens c` records the counter value `c` at the call. -/
inductive Call
  | buyTokens
  | sellAllTokens (count : Nat)
  | delay (ms : Nat)
  | logCount (count : Nat)
  | logSellDone
  | logError
  deriving DecidableEq, Repr

/-- Whether a call is a call of `sellAllTokens`. -/
def Call.isSell : Call → Bool
  | .sellAllTokens _ => true
  | _ => false

/-- State of the loop: the counter and the calls made so far in the current
iteration. -/
structure IterationState where
  successfulBuyCount : Nat
  calls : List Call
  deriving DecidableEq, Repr

/-- Body of the inner `try` (lines 392-410) started with counter `count`;
`sell` is the outcome `sellAllTokens` has if it is called. Assignments made
before an error is raised stay in effect. -/
def tryBody (sell : Except JsError Unit) (count : Nat) : IterationState × Except JsError Unit :=
  let c := count + 1
  let calls := [Call.logCount c]
  if c = NUM_SUCCESSFUL_BUYS_BEFORE_SELL then
    match sell with
    | .error e => (⟨c, calls ++ [Call.sellAllTokens c]⟩, .error e)
    | .ok _ => (⟨0, calls ++ [Call.sellAllTokens c, Call.logSellDone, Call.delay 2500]⟩, .ok ())
  else (⟨c, calls ++ [Call.delay 2500]⟩, .ok ())

/-- One pass through the `while (true)` body: the inner `try` and its `catch`
(lines 412-415), whose handler only logs. An error result would mean the
handler itself raised. -/
def iteration (sell : Except JsError Unit) (count : Nat) : Except JsError IterationState :=
  match tryBody sell count with
  | (s, .ok _) => .ok s
  | (s, .error _) => .ok ⟨s.successfulBuyCount, s.calls ++ [Call.logError]⟩

/-- How an execution of `runCycle` stands after a bounded number of passes. -/
inductive Completion
  | running (count : Nat)
  | returned
  | thrown (e : JsError)
  deriving DecidableEq, Repr

/-- Function `runCycle` (lines 386-421) observed for `fuel` passes of the
loop, from pass number `i` with counter `count`. `sell j` is the outcome of
the liquidation if pass `j` calls it. An error leaving a pass reaches the
outer `catch`, which rethrows it. -/
def runCycleFrom (sell : Nat → Except JsError Unit) : Nat → Nat → Nat → Completion
  | 0, _, count => .running count
  | fuel + 1, i, count =>
    match iteration (sell i) count with
    | .ok s => runCycleFrom sell fuel (i + 1) s.successfulBuyCount
    | .error e => .thrown e

/-- Function `runCycle` from its initial state `successfulBuyCount = 0`. -/
def runCycle (sell : Nat → Except JsError Unit) (fuel : Nat) : Completion :=
  runCycleFrom sell fuel 0 0

/-- Counter value at the start of pass `n` (passes numbered from 0). -/
def countBefore (sell : Nat → Except JsError Unit) : Nat → Nat
  | 0 => 0
  | n + 1 => (tryBody (sell n) (countBefore sell n)).1.successfulBuyCount

/-- Calls made during pass `n`. -/
def callsOf (sell : Nat → Except JsError Unit) (n : Nat) : List Call :=
  match iteration (sell n) (countBefore sell n) with
  | .ok s => s.calls
  | .error _ => []

/-! ## Properties of `runCycle` -/

/-- Counter left by the body of the inner `try`. -/
theorem tryBody_count (out : Except JsError Unit) (count : Nat) :
    (tryBody out count).1.successfulBuyCount =
      if count + 1 = NUM_SUCCESSFUL_BUYS_BEFORE_SELL then
        (match out with | .ok _ => 0 | .error _ => count + 1)
      else count + 1 := by
  unfold tryBody
  by_cases h : count + 1 = NUM_SUCCESSFUL_BUYS_BEFORE_SELL
  · cases out <;> simp [h]
  · simp [h]

/-- A pass always ends normally, with the counter left by its `try` body. -/
theorem iteration_eq (out : Except JsError Unit) (count : Nat) :
    ∃ s, iteration out count = .ok s ∧
      s.successfulBuyCount = (tryBody out count).1.successfulBuyCount := by
  unfold iteration
  rcases h : tryBody out count with ⟨s, r⟩
  cases r <;> simp

/-- After `fuel` further passes the loop is running with the counter of pass `i + fuel`. -/
theorem runCycleFrom_running (sell : Nat → Except JsError Unit) (fuel : Nat) :
    ∀ i, runCycleFrom sell fuel i (countBefore sell i) = .running (countBefore sell (i + fuel)) := by
  induction fuel with
  | zero => intro i; simp [runCycleFrom]
  | succ k ih =>
    intro i
    obtain ⟨s, hs, hc⟩ := iteration_eq (sell i) (countBefore sell i)
    have hstep : countBefore sell (i + 1) = s.successfulBuyCount := by
      rw [hc]; rfl
    simp only [runCycleFrom, hs]
    rw [← hstep, ih (i + 1)]
    congr 2
    omega

/-- With every liquidation succeeding the counter alternates 0, 1, 0, 1, ... -/
theorem countBefore_all_ok (sell : Nat → Except JsError Unit)
    (hok : ∀ i, sell i = .ok ()) (n : Nat) : countBefore sell n = n % 2 := by
  induction n with
  | zero => rfl
  | succ k ih =>
    show (tryBody (sell k) (countBefore sell k)).1.successfulBuyCount = (k + 1) % 2
    rw [tryBody_count, hok, ih]
    have h2 : k % 2 = 0 ∨ k % 2 = 1 := by omega
    rcases h2 with h | h
    · have : (k + 1) % 2 = 1 := by omega
      simp [h, this, NUM_SUCCESSFUL_BUYS_BEFORE_SELL]
    · have : (k + 1) % 2 = 0 := by omega
      simp [h, this, NUM_SUCCESSFUL_BUYS_BEFORE_SELL]

/-- The calls of pass `n`, by cases on the threshold test and the liquidation outcome. -/
theorem callsOf_eq (sell : Nat → Except JsError Unit) (n : Nat) :
    callsOf sell n =
      if countBefore sell n + 1 = NUM_SUCCESSFUL_BUYS_BEFORE_SELL then
        (match sell n with
          | .ok _ => [Call.logCount (countBefore sell n + 1),
              Call.sellAllTokens (countBefore sell n + 1), Call.logSellDone, Call.delay 2500]
          | .error _ => [Call.logCount (countBefore sell n + 1),
              Call.sellAllTokens (countBefore sell n + 1), Call.logError])
      else [Call.logCount (countBefore sell n + 1), Call.delay 2500] := by
  unfold callsOf iteration tryBody
  by_cases h : countBefore sell n + 1 = NUM_SUCCESSFUL_BUYS_BEFORE_SELL
  · cases sell n <;> simp [h]
  · simp [h]

/-- C1: starting from `successfulBuyCount = 0`, when every liquidation pass
completes without error, the loop is still running after any number of passes
with counter `n % 2`; in each pass `sellAllTokens` is called exactly once when
the counter reaches `NUM_SUCCESSFUL_BUYS_BEFORE_SELL = 2` in that pass and not
at all otherwise, every such call happens at counter value 2, and after it the
counter is 0 when the next pass begins. -/
theorem runCycle_sells_exactly_at_threshold (sell : Nat → Except JsError Unit)
    (hok : ∀ i, sell i = .ok ()) (n : Nat) :
    runCycle sell n = .running (countBefore sell n) ∧
    countBefore sell n = n % 2 ∧
    (callsOf sell n).filter Call.isSell =
      (if countBefore sell n + 1 = NUM_SUCCESSFUL_BUYS_BEFORE_SELL
        then [Call.sellAllTokens 2] else []) ∧
    (countBefore sell n + 1 = NUM_SUCCESSFUL_BUYS_BEFORE_SELL → countBefore sell (n + 1) = 0) ∧
    (countBefore sell n + 1 ≠ NUM_SUCCESSFUL_BUYS_BEFORE_SELL →
      countBefore sell (n + 1) = countBefore sell n + 1) := by
  have hrun : runCycle sell n = .running (countBefore sell n) := by
    have h := runCycleFrom_running sell n 0
    simpa [runCycle, countBefore] using h
  have hnext : countBefore sell (n + 1) =
      (tryBody (sell n) (countBefore sell n)).1.successfulBuyCount := rfl
  refine ⟨hrun, countBefore_all_ok sell hok n, ?_, ?_, ?_⟩
  · rw [callsOf_eq, hok]
    by_cases h : countBefore sell n + 1 = NUM_SUCCESSFUL_BUYS_BEFORE_SELL
    · have h2 : countBefore sell n + 1 = 2 := h
      rw [if_pos h, if_pos h, h2]
      rfl
    · simp [h, Call.isSell]
  · intro h
    rw [hnext, tryBody_count, hok]
    simp [h]
  · intro h
    rw [hnext, tryBody_count]
    simp [h]

/-- Instance of C1 at the second pass of a run whose liquidations all succeed. -/
theorem runCycle_sells_exactly_at_threshold_witness :
    (∀ i : Nat, (fun _ => Except.ok ()) i = (Except.ok () : Except JsError Unit)) ∧
    (runCycle (fun _ => .ok ()) 1 = .running (countBefore (fun _ => .ok ()) 1) ∧
    countBefore (fun _ => .ok ()) 1 = 1 % 2 ∧
    (callsOf (fun _ => .ok ()) 1).filter Call.isSell =
      (if countBefore (fun _ => .ok ()) 1 + 1 = NUM_SUCCESSFUL_BUYS_BEFORE_SELL
        then [Call.sellAllTokens 2] else []) ∧
    (countBefore (fun _ => .ok ()) 1 + 1 = NUM_SUCCESSFUL_BUYS_BEFORE_SELL →
      countBefore (fun _ => .ok ()) (1 + 1) = 0) ∧
    (countBefore (fun _ => .ok ()) 1 + 1 ≠ NUM_SUCCESSFUL_BUYS_BEFORE_SELL →
      countBefore (fun _ => .ok ()) (1 + 1) = countBefore (fun _ => .ok ()) 1 + 1)) :=
  ⟨fun _ => rfl, runCycle_sells_exactly_at_threshold (fun _ => .ok ()) (fun _ => rfl) 1⟩

/-- C2: evaluation of the loop body. No pass of `runCycle` calls `buyTokens`,
and the counter is nevertheless incremented: from a fresh start the first pass
makes only the calls "log the counter" and `delay(2500)`, and the counter is 1
at the start of the second pass. -/
theorem runCycle_counts_without_buying (sell : Nat → Except JsError Unit) (n : Nat) :
    Call.buyTokens ∉ callsOf sell n ∧
    callsOf sell 0 = [Call.logCount 1, Call.delay 2500] ∧
    countBefore sell 0 = 0 ∧ countBefore sell 1 = 1 := by
  refine ⟨?_, ?_, rfl, ?_⟩
  · rw [callsOf_eq]
    by_cases h : countBefore sell n + 1 = NUM_SUCCESSFUL_BUYS_BEFORE_SELL
    · cases sell n <;> simp [h]
    · simp [h]
  · rw [callsOf_eq]
    simp [countBefore, NUM_SUCCESSFUL_BUYS_BEFORE_SELL]
  · show (tryBody (sell 0) (countBefore sell 0)).1.successfulBuyCount = 1
    rw [tryBody_count]
    simp [countBefore, NUM_SUCCESSFUL_BUYS_BEFORE_SELL]

/-- C6: whatever the liquidation outcomes, an error raised inside a pass of
the `runCycle` loop is caught by the handler of that pass (which logs it) and
the loop goes on with the next pass; after any number of passes `runCycle` is
still running: it has neither returned nor thrown to its caller. -/
theorem runCycle_never_leaves_loop (sell : Nat → Except JsError Unit) (fuel : Nat) :
    (∀ i count, runCycleFrom sell (fuel + 1) i count =
      runCycleFrom sell fuel (i + 1) (tryBody (sell i) count).1.successfulBuyCount) ∧
    (∀ e count, (tryBody (.error e) 1).2 = .error e ∧
      iteration (.error e) count = .ok ⟨count + 1,
        if count + 1 = NUM_SUCCESSFUL_BUYS_BEFORE_SELL
        then [Call.logCount (count + 1), Call.sellAllTokens (count + 1), Call.logError]
        else [Call.logCount (count + 1), Call.delay 2500]⟩) ∧
    runCycle sell fuel = .running (countBefore sell fuel) ∧
    runCycle sell fuel ≠ .returned ∧ ∀ e, runCycle sell fuel ≠ .thrown e := by
  have hrun : runCycle sell fuel = .running (countBefore sell fuel) := by
    have h := runCycleFrom_running sell fuel 0
    simpa [runCycle, countBefore] using h
  refine ⟨?_, ?_, hrun, ?_, ?_⟩
  · intro i count
    obtain ⟨s, hs, hc⟩ := iteration_eq (sell i) count
    simp only [runCycleFrom, hs, hc]
  · intro e count
    refine ⟨rfl, ?_⟩
    unfold iteration tryBody
    by_cases h : count + 1 = NUM_SUCCESSFUL_BUYS_BEFORE_SELL
    · simp [h]
    · simp [h]
  · rw [hrun]; simp
  · intro e; rw [hrun]; simp

/-- Once the liquidation of the second pass has failed, the counter only grows. -/
theorem countBefore_after_failure (sell : Nat → Except JsError Unit) (e : JsError)
    (hfail : sell 1 = .error e) (k : Nat) : countBefore sell (2 + k) = 2 + k := by
  induction k with
  | zero =>
    show (tryBody (sell 1) (tryBody (sell 0) 0).1.successfulBuyCount).1.successfulBuyCount = 2
    rw [hfail, tryBody_count, tryBody_count]
    simp [NUM_SUCCESSFUL_BUYS_BEFORE_SELL]
  | succ j ih =>
    show (tryBody (sell (2 + j)) (countBefore sell (2 + j))).1.successfulBuyCount = 2 + (j + 1)
    rw [tryBody_count, ih]
    have : ¬ (2 + j + 1 = NUM_SUCCESSFUL_BUYS_BEFORE_SELL) := by
      unfold NUM_SUCCESSFUL_BUYS_BEFORE_SELL; omega
    simp [this]
    omega

/-- C8: evaluation of the loop after one failed liquidation. When the
liquidation called in the second pass raises an error `e`, then whatever the
later outcomes would be, the counter is `2 + k` at the start of pass `2 + k`
(so it is 3 > 2 one pass later and grows without bound) and no later pass
calls `sellAllTokens`. -/
theorem runCycle_stuck_after_failed_sell (later : Nat → Except JsError Unit) (e : JsError)
    (k : Nat) :
    countBefore (fun i => if i = 1 then .error e else later i) (2 + k) = 2 + k ∧
    countBefore (fun i => if i = 1 then .error e else later i) 3 = 3 ∧
    (callsOf (fun i => if i = 1 then .error e else later i) (2 + k)).filter Call.isSell = [] ∧
    runCycle (fun i => if i = 1 then .error e else later i) (2 + k) = .running (2 + k) := by
  have hc := countBefore_after_failure (fun i => if i = 1 then .error e else later i) e
    (by simp)
  refine ⟨hc k, hc 1, ?_, ?_⟩
  · rw [callsOf_eq, hc k]
    have : ¬ (2 + k + 1 = NUM_SUCCESSFUL_BUYS_BEFORE_SELL) := by
      unfold NUM_SUCCESSFUL_BUYS_BEFORE_SELL; omega
    simp [this, Call.isSell]
  · have h := runCycleFrom_running (fun i => if i = 1 then .error e else later i) (2 + k) 0
    rw [runCycle]
    have h0 : countBefore (fun i => if i = 1 then .error e else later i) 0 = 0 := rfl
    rw [h0] at h
    rw [h]
    congr 1
    rw [Nat.zero_add]
    exact hc k

/-! ## Properties of `sellAllTokens` -/

/-- Natural numbers below `2 ^ 53` are binary64 values. -/
theorem roundDouble_small (n : Nat) (h : n < 2 ^ 53) : roundDouble n = n := by
  have hu : ulp n = 1 := by
    unfold ulp
    rw [show (971 : Nat) = 970 + 1 from rfl, ulpAux, if_pos (by omega)]
  have h0 : 2 * (n % 1) < 1 := by omega
  simp only [roundDouble, hu, if_pos h0, Nat.div_one, Nat.mul_one]

/-- Below `2 ^ 53` line 312 yields the balance minus 1000 (possibly zero or negative). -/
theorem amountToSell1_small (b : Nat) (h : b < 2 ^ 53) :
    amountToSell1 b = .ok ((b : Int) - 1000) := by
  unfold amountToSell1 toNumber numberSub BN.ofNumber
  rw [roundDouble_small b h]
  by_cases hb : (0 : Int) ≤ (b : Int) - 1000
  · have h1 : ((b : Int) - 1000).toNat < 2 ^ 53 := by omega
    have h2 : ((roundDouble ((b : Int) - 1000).toNat : Nat) : Int) = (b : Int) - 1000 := by
      rw [roundDouble_small _ h1]; omega
    simp only [hb, if_true, h2]
    have h3 : ((b : Int) - 1000).natAbs < 2 ^ 53 := by omega
    rw [if_pos h3]
  · have h1 : (-((b : Int) - 1000)).toNat < 2 ^ 53 := by omega
    have h2 : -((roundDouble (-((b : Int) - 1000)).toNat : Nat) : Int) = (b : Int) - 1000 := by
      rw [roundDouble_small _ h1]; omega
    simp only [hb, if_false, h2]
    have h3 : ((b : Int) - 1000).natAbs < 2 ^ 53 := by omega
    rw [if_pos h3]

/-- An account without token amount is skipped. -/
theorem sellLoop_cons_none (f : Nat → Bool) (i : Nat) (rest : List TokenAccount) :
    sellLoop f i (⟨none⟩ :: rest) = sellLoop f (i + 1) rest := by
  simp [sellLoop]

/-- An account with balance 0 is skipped. -/
theorem sellLoop_cons_zero (f : Nat → Bool) (i : Nat) (rest : List TokenAccount) :
    sellLoop f i (⟨some 0⟩ :: rest) = sellLoop f (i + 1) rest := by
  simp [sellLoop]

/-- A rejected submission ends the loop with the error. -/
theorem sellLoop_cons_fail (f : Nat → Bool) (i b : Nat) (rest : List TokenAccount)
    (hb : 0 < b) (h53 : b < 2 ^ 53) (hf : f i = true) :
    sellLoop f i (⟨some b⟩ :: rest) =
      ([⟨i, ⟨(b : Int) - 1000, 0⟩, false⟩], .error .sendFailed) := by
  have hb0 : b ≠ 0 := by omega
  simp [sellLoop, hb0, amountToSell1_small b h53, hf]

/-- An accepted submission is recorded and the loop goes on. -/
theorem sellLoop_cons_sent (f : Nat → Bool) (i b : Nat) (rest : List TokenAccount)
    (hb : 0 < b) (h53 : b < 2 ^ 53) (hf : f i = false) :
    sellLoop f i (⟨some b⟩ :: rest) =
      (⟨i, ⟨(b : Int) - 1000, 0⟩, true⟩ :: (sellLoop f (i + 1) rest).1,
        (sellLoop f (i + 1) rest).2) := by
  have hb0 : b ≠ 0 := by omega
  simp [sellLoop, hb0, amountToSell1_small b h53, hf]

/-- The positions for which a sell is attempted: accounts with balance > 0 that no
rejected account with balance > 0 precedes. -/
theorem sellLoop_attempted_iff (f : Nat → Bool) (accounts : List TokenAccount) :
    ∀ i0 : Nat, (∀ a ∈ accounts, ∀ b, a.amount = some b → b < 2 ^ 53) → ∀ k : Nat,
      ((∃ a ∈ (sellLoop f i0 accounts).1, a.index = k) ↔
        ∃ n b, k = i0 + n ∧ accounts[n]? = some ⟨some b⟩ ∧ 0 < b ∧
          ∀ m bm, m < n → accounts[m]? = some ⟨some bm⟩ → 0 < bm → f (i0 + m) = false) := by
  induction accounts with
  | nil =>
    intro i0 _ k
    simp [sellLoop]
  | cons acc rest ih =>
    intro i0 hsafe k
    have hsafe_rest : ∀ a ∈ rest, ∀ b, a.amount = some b → b < 2 ^ 53 :=
      fun a ha b hb => hsafe a (List.mem_cons_of_mem _ ha) b hb
    have hskip : (¬ ∃ b, acc = ⟨some b⟩ ∧ 0 < b) →
        sellLoop f i0 (acc :: rest) = sellLoop f (i0 + 1) rest →
        ((∃ a ∈ (sellLoop f i0 (acc :: rest)).1, a.index = k) ↔
        ∃ n b, k = i0 + n ∧ (acc :: rest)[n]? = some ⟨some b⟩ ∧ 0 < b ∧
          ∀ m bm, m < n → (acc :: rest)[m]? = some ⟨some bm⟩ → 0 < bm →
            f (i0 + m) = false) := by
      intro hns heq
      rw [heq, ih (i0 + 1) hsafe_rest k]
      constructor
      · rintro ⟨n, b, hk, hn, hb, hall⟩
        refine ⟨n + 1, b, by omega, by simpa using hn, hb, ?_⟩
        intro m bm hm hget hbm
        cases m with
        | zero =>
          exfalso
          apply hns
          refine ⟨bm, ?_, hbm⟩
          simpa using hget
        | succ m =>
          have := hall m bm (by omega) (by simpa using hget) hbm
          rw [show i0 + (m + 1) = i0 + 1 + m by omega]
          exact this
      · rintro ⟨n, b, hk, hn, hb, hall⟩
        cases n with
        | zero =>
          exfalso
          apply hns
          refine ⟨b, ?_, hb⟩
          simpa using hn
        | succ n =>
          refine ⟨n, b, by omega, by simpa using hn, hb, ?_⟩
          intro m bm hm hget hbm
          have := hall (m + 1) bm (by omega) (by simpa using hget) hbm
          rw [show i0 + 1 + m = i0 + (m + 1) by omega]
          exact this
    rcases acc with ⟨amt⟩
    cases amt with
    | none =>
      apply hskip
      · rintro ⟨b, hb, _⟩
        simp at hb
      · exact sellLoop_cons_none f i0 rest
    | some b =>
      by_cases hb0 : b = 0
      · subst hb0
        apply hskip
        · rintro ⟨b, hb, hpos⟩
          simp at hb
          omega
        · exact sellLoop_cons_zero f i0 rest
      · have hb : 0 < b := by omega
        have h53 : b < 2 ^ 53 := hsafe ⟨some b⟩ (List.mem_cons_self _ _) b rfl
        cases hf : f i0 with
        | true =>
          rw [sellLoop_cons_fail f i0 b rest hb h53 hf]
          constructor
          · rintro ⟨a, ha, hk⟩
            simp at ha
            subst ha
            exact ⟨0, b, by simpa using hk.symm, by simp, hb, by intro m bm hm; omega⟩
          · rintro ⟨n, b2, hk, hn, hb2, hall⟩
            cases n with
            | zero =>
              exact ⟨⟨i0, ⟨(b : Int) - 1000, 0⟩, false⟩, List.mem_singleton.mpr rfl,
                by simpa using hk.symm⟩
            | succ n =>
              have := hall 0 b (by omega) (by simp) hb
              simp [hf] at this
        | false =>
          rw [sellLoop_cons_sent f i0 b rest hb h53 hf]
          constructor
          · rintro ⟨a, ha, hk⟩
            simp only [List.mem_cons] at ha
            rcases ha with ha | ha
            · subst ha
              exact ⟨0, b, by simpa using hk.symm, by simp, hb, by intro m bm hm; omega⟩
            · obtain ⟨n, b2, hk2, hn, hb2, hall⟩ := (ih (i0 + 1) hsafe_rest k).mp ⟨a, ha, hk⟩
              refine ⟨n + 1, b2, by omega, by simpa using hn, hb2, ?_⟩
              intro m bm hm hget hbm
              cases m with
              | zero => simpa using hf
              | succ m =>
                have := hall m bm (by omega) (by simpa using hget) hbm
                rw [show i0 + (m + 1) = i0 + 1 + m by omega]
                exact this
          · rintro ⟨n, b2, hk, hn, hb2, hall⟩
            cases n with
            | zero => exact ⟨_, List.mem_cons_self _ _, by simpa using hk.symm⟩
            | succ n =>
              have hrest : ∃ a ∈ (sellLoop f (i0 + 1) rest).1, a.index = k := by
                apply (ih (i0 + 1) hsafe_rest k).mpr
                refine ⟨n, b2, by omega, by simpa using hn, hb2, ?_⟩
                intro m bm hm hget hbm
                have := hall (m + 1) bm (by omega) (by simpa using hget) hbm
                rw [show i0 + 1 + m = i0 + (m + 1) by omega]
                exact this
              obtain ⟨a, ha, hk2⟩ := hrest
              exact ⟨a, List.mem_cons_of_mem _ ha, hk2⟩

/-- A rejected submission of an account with balance > 0 makes the loop raise. -/
theorem sellLoop_raises (f : Nat → Bool) (accounts : List TokenAccount) :
    ∀ i0 : Nat, (∀ a ∈ accounts, ∀ b, a.amount = some b → b < 2 ^ 53) →
      (∃ n b, accounts[n]? = some ⟨some b⟩ ∧ 0 < b ∧ f (i0 + n) = true) →
      (sellLoop f i0 accounts).2 = .error .sendFailed := by
  induction accounts with
  | nil =>
    intro i0 _ h
    obtain ⟨n, b, hn, _, _⟩ := h
    simp at hn
  | cons acc rest ih =>
    intro i0 hsafe h
    have hsafe_rest : ∀ a ∈ rest, ∀ b, a.amount = some b → b < 2 ^ 53 :=
      fun a ha b hb => hsafe a (List.mem_cons_of_mem _ ha) b hb
    obtain ⟨n, b2, hn, hb2, hfn⟩ := h
    have hshift : n ≠ 0 → (sellLoop f (i0 + 1) rest).2 = .error .sendFailed := by
      intro hn0
      obtain ⟨n1, rfl⟩ := Nat.exists_eq_succ_of_ne_zero hn0
      apply ih (i0 + 1) hsafe_rest
      refine ⟨n1, b2, by simpa using hn, hb2, ?_⟩
      rw [show i0 + 1 + n1 = i0 + (n1 + 1) by omega]
      exact hfn
    rcases acc with ⟨amt⟩
    cases amt with
    | none =>
      rw [sellLoop_cons_none]
      apply hshift
      rintro rfl
      simp at hn
    | some b =>
      by_cases hb0 : b = 0
      · subst hb0
        rw [sellLoop_cons_zero]
        apply hshift
        rintro rfl
        simp at hn
        omega
      · have hb : 0 < b := by omega
        have h53 : b < 2 ^ 53 := hsafe ⟨some b⟩ (List.mem_cons_self _ _) b rfl
        cases hf : f i0 with
        | true => rw [sellLoop_cons_fail f i0 b rest hb h53 hf]
        | false =>
          rw [sellLoop_cons_sent f i0 b rest hb h53 hf]
          apply hshift
          rintro rfl
          simp [hf] at hfn

/-- Without a rejected submission of an account with balance > 0 the loop completes. -/
theorem sellLoop_completes (f : Nat → Bool) (accounts : List TokenAccount) :
    ∀ i0 : Nat, (∀ a ∈ accounts, ∀ b, a.amount = some b → b < 2 ^ 53) →
      (∀ n b, accounts[n]? = some ⟨some b⟩ → 0 < b → f (i0 + n) = false) →
      (sellLoop f i0 accounts).2 = .ok () := by
  induction accounts with
  | nil =>
    intro i0 _ _
    simp [sellLoop]
  | cons acc rest ih =>
    intro i0 hsafe h
    have hsafe_rest : ∀ a ∈ rest, ∀ b, a.amount = some b → b < 2 ^ 53 :=
      fun a ha b hb => hsafe a (List.mem_cons_of_mem _ ha) b hb
    have hrest : (sellLoop f (i0 + 1) rest).2 = .ok () := by
      apply ih (i0 + 1) hsafe_rest
      intro n b hn hb
      have := h (n + 1) b (by simpa using hn) hb
      rw [show i0 + 1 + n = i0 + (n + 1) by omega]
      exact this
    rcases acc with ⟨amt⟩
    cases amt with
    | none => rw [sellLoop_cons_none]; exact hrest
    | some b =>
      by_cases hb0 : b = 0
      · subst hb0
        rw [sellLoop_cons_zero]; exact hrest
      · have hb : 0 < b := by omega
        have h53 : b < 2 ^ 53 := hsafe ⟨some b⟩ (List.mem_cons_self _ _) b rfl
        have hf : f i0 = false := by
          have := h 0 b (by simp) hb
          simpa using this
        rw [sellLoop_cons_sent f i0 b rest hb h53 hf]
        exact hrest

/-- Without failures the loop performs exactly the expected sells. -/
theorem sellLoop_no_failure (f : Nat → Bool) (hf : ∀ j, f j = false)
    (accounts : List TokenAccount) :
    ∀ i0 : Nat, (∀ a ∈ accounts, ∀ b, a.amount = some b → b < 2 ^ 53) →
      sellLoop f i0 accounts = (expectedSells i0 accounts, .ok ()) := by
  induction accounts with
  | nil =>
    intro i0 _
    simp [sellLoop, expectedSells]
  | cons acc rest ih =>
    intro i0 hsafe
    have hsafe_rest : ∀ a ∈ rest, ∀ b, a.amount = some b → b < 2 ^ 53 :=
      fun a ha b hb => hsafe a (List.mem_cons_of_mem _ ha) b hb
    have hrest := ih (i0 + 1) hsafe_rest
    rcases acc with ⟨amt⟩
    cases amt with
    | none =>
      rw [sellLoop_cons_none, hrest]
      simp [expectedSells, List.enumFrom_cons]
    | some b =>
      by_cases hb0 : b = 0
      · subst hb0
        rw [sellLoop_cons_zero, hrest]
        simp [expectedSells, List.enumFrom_cons]
      · have hb : 0 < b := by omega
        have h53 : b < 2 ^ 53 := hsafe ⟨some b⟩ (List.mem_cons_self _ _) b rfl
        rw [sellLoop_cons_sent f i0 b rest hb h53 (hf i0), hrest]
        simp [expectedSells, List.enumFrom_cons, hb]

/-- With the global account and a first holder found, `sellAllTokens` is its loop. -/
theorem sellAllTokens_eq_sellLoop (w : SellWorld) (holder : Nat)
    (hglobal : w.globalAccountFound = true) (hholder : w.firstHolder = some holder) :
    sellAllTokens w = sellLoop w.sendFails 0 w.tokenAccounts := by
  unfold sellAllTokens
  by_cases hlen : w.tokenAccounts.length = 0
  · have hnil : w.tokenAccounts = [] := List.length_eq_zero.mp hlen
    simp [hnil, sellLoop]
  · simp [hlen, hglobal, hholder]

/-- C3: evaluation of line 312. The balance 5000 gives a sell of 4000 with
minimum proceeds 0, but for the balance 9007199254740993 (`2 ^ 53 + 1`, an
unsigned 64-bit amount) the subtraction is carried out on JavaScript numbers:
the instruction sent carries 9007199254739992, which is not the balance minus
1000, and for the largest 64-bit balance no instruction is built at all
because the `bn.js` constructor rejects the number. -/
theorem amountToSell1_loses_precision :
    sellAllTokens ⟨[⟨some 5000⟩], true, some 1, fun _ => false⟩ =
      ([⟨0, ⟨4000, 0⟩, true⟩], .ok ()) ∧
    amountToSell1 9007199254740993 = .ok 9007199254739992 ∧
    (9007199254740993 : Int) - 1000 ≠ 9007199254739992 ∧
    sellAllTokens ⟨[⟨some 9007199254740993⟩], true, some 1, fun _ => false⟩ =
      ([⟨0, ⟨9007199254739992, 0⟩, true⟩], .ok ()) ∧
    amountToSell1 18446744073709551615 = .error .assertionFailed := by
  decide

/-- C10: evaluation of lines 306-320 on small balances. The account with
balance 1000 is not skipped and its sell instruction carries the amount 0; the
account with balance 500 is not skipped and its sell instruction carries the
amount -500. Neither is strictly positive. -/
theorem amountToSell1_not_positive :
    sellAllTokens ⟨[⟨some 1000⟩], true, some 1, fun _ => false⟩ =
      ([⟨0, ⟨0, 0⟩, true⟩], .ok ()) ∧
    sellAllTokens ⟨[⟨some 500⟩], true, some 1, fun _ => false⟩ =
      ([⟨0, ⟨-500, 0⟩, true⟩], .ok ()) ∧
    amountToSell1 1000 = .ok 0 ∧ amountToSell1 500 = .ok (-500) := by
  decide

/-- C4 (as stated, refuted): with the two balances 5000 and 7000 and a
rejected submission for the first account, it is not the case that a sell is
attempted for every account with balance > 0: the account at position 1 is
never reached. -/
theorem sellAllTokens_stops_at_first_failure :
    ¬ (∀ k b, ([⟨some 5000⟩, ⟨some 7000⟩] : List TokenAccount)[k]? = some ⟨some b⟩ → 0 < b →
      ∃ a ∈ (sellAllTokens ⟨[⟨some 5000⟩, ⟨some 7000⟩], true, some 1, fun i => i == 0⟩).1,
        a.index = k) := by
  intro h
  obtain ⟨a, ha, hk⟩ := h 1 7000 rfl (by decide)
  have hval : (sellAllTokens ⟨[⟨some 5000⟩, ⟨some 7000⟩], true, some 1, fun i => i == 0⟩).1 =
      [⟨0, ⟨4000, 0⟩, false⟩] := by decide
  rw [hval] at ha
  simp at ha
  subst ha
  simp at hk

/-- C4 (amended): for every list of token accounts with balances below
`2 ^ 53`, when the global account and a first holder are found, and for every
pattern of per-account submission failures, `sellAllTokens` attempts a sell
for the account at position `k` exactly when that account has balance > 0 and
no account with balance > 0 before it had its submission rejected; when some
account with balance > 0 has its submission rejected, the error is re-raised
to the caller. -/
theorem sellAllTokens_attempts_until_first_failure (w : SellWorld) (holder : Nat)
    (hglobal : w.globalAccountFound = true) (hholder : w.firstHolder = some holder)
    (hsafe : ∀ a ∈ w.tokenAccounts, ∀ b, a.amount = some b → b < 2 ^ 53) (k : Nat) :
    ((∃ a ∈ (sellAllTokens w).1, a.index = k) ↔
      ∃ b, w.tokenAccounts[k]? = some ⟨some b⟩ ∧ 0 < b ∧
        ∀ m bm, m < k → w.tokenAccounts[m]? = some ⟨some bm⟩ → 0 < bm →
          w.sendFails m = false) ∧
    ((∃ n b, w.tokenAccounts[n]? = some ⟨some b⟩ ∧ 0 < b ∧ w.sendFails n = true) →
      (sellAllTokens w).2 = .error .sendFailed) ∧
    ((∀ n b, w.tokenAccounts[n]? = some ⟨some b⟩ → 0 < b → w.sendFails n = false) →
      (sellAllTokens w).2 = .ok ()) := by
  rw [sellAllTokens_eq_sellLoop w holder hglobal hholder]
  refine ⟨?_, ?_, ?_⟩
  · rw [sellLoop_attempted_iff w.sendFails w.tokenAccounts 0 hsafe k]
    constructor
    · rintro ⟨n, b, hk, hn, hb, hall⟩
      have hkn : k = n := by omega
      subst hkn
      refine ⟨b, hn, hb, ?_⟩
      intro m bm hm hget hbm
      simpa using hall m bm hm hget hbm
    · rintro ⟨b, hn, hb, hall⟩
      refine ⟨k, b, by omega, hn, hb, ?_⟩
      intro m bm hm hget hbm
      simpa using hall m bm hm hget hbm
  · rintro ⟨n, b, hn, hb, hf⟩
    apply sellLoop_raises w.sendFails w.tokenAccounts 0 hsafe
    exact ⟨n, b, hn, hb, by simpa using hf⟩
  · intro h
    apply sellLoop_completes w.sendFails w.tokenAccounts 0 hsafe
    intro n b hn hb
    simpa using h n b hn hb

/-- The balances 5000 and 7000 are below `2 ^ 53`. -/
theorem two_accounts_safe :
    ∀ a ∈ ([⟨some 5000⟩, ⟨some 7000⟩] : List TokenAccount), ∀ b, a.amount = some b →
      b < 2 ^ 53 := by
  intro a ha b hb
  simp at ha
  rcases ha with rfl | rfl <;> simp at hb <;> omega

/-- Instance of the amended C4 at balances 5000 and 7000 with the first submission
rejected, for the account at position 0. -/
theorem sellAllTokens_attempts_until_first_failure_witness :
    (∀ a ∈ ([⟨some 5000⟩, ⟨some 7000⟩] : List TokenAccount), ∀ b, a.amount = some b →
      b < 2 ^ 53) ∧
    (((∃ a ∈ (sellAllTokens ⟨[⟨some 5000⟩, ⟨some 7000⟩], true, some 1, fun i => i == 0⟩).1,
        a.index = 0) ↔
      ∃ b, ([⟨some 5000⟩, ⟨some 7000⟩] : List TokenAccount)[0]? = some ⟨some b⟩ ∧ 0 < b ∧
        ∀ m bm, m < 0 → ([⟨some 5000⟩, ⟨some 7000⟩] : List TokenAccount)[m]? = some ⟨some bm⟩ →
          0 < bm → (fun i => i == 0) m = false) ∧
    ((∃ n b, ([⟨some 5000⟩, ⟨some 7000⟩] : List TokenAccount)[n]? = some ⟨some b⟩ ∧ 0 < b ∧
        (fun i => i == 0) n = true) →
      (sellAllTokens ⟨[⟨some 5000⟩, ⟨some 7000⟩], true, some 1, fun i => i == 0⟩).2 =
        .error .sendFailed) ∧
    ((∀ n b, ([⟨some 5000⟩, ⟨some 7000⟩] : List TokenAccount)[n]? = some ⟨some b⟩ → 0 < b →
        (fun i => i == 0) n = false) →
      (sellAllTokens ⟨[⟨some 5000⟩, ⟨some 7000⟩], true, some 1, fun i => i == 0⟩).2 =
        .ok ())) :=
  ⟨two_accounts_safe,
    sellAllTokens_attempts_until_first_failure
      ⟨[⟨some 5000⟩, ⟨some 7000⟩], true, some 1, fun i => i == 0⟩ 1 rfl rfl
      two_accounts_safe 0⟩

/-- C5 (as stated, refuted): a first holder exists and no submission fails,
yet with the global account missing the pass submits nothing for the account
with balance 5000 and raises an error. -/
theorem sellAllTokens_needs_global_account :
    ¬ (∀ w : SellWorld, (∃ holder, w.firstHolder = some holder) →
      (∀ j, w.sendFails j = false) →
      sellAllTokens w = (expectedSells 0 w.tokenAccounts, .ok ())) := by
  intro h
  have h1 := h ⟨[⟨some 5000⟩], false, some 1, fun _ => false⟩ ⟨1, rfl⟩ (fun _ => rfl)
  exact absurd h1 (by decide)

/-- C5 (amended): for every list of token accounts with balances below
`2 ^ 53`, when the global account is found, a first holder exists and no
submission fails, `sellAllTokens` submits exactly one sell per account with
non-zero balance, in enumeration order (each for the balance minus 1000 with
minimum proceeds 0), submits none for an account whose balance is 0 or whose
token amount is missing, and raises no error. -/
theorem sellAllTokens_sells_each_nonzero_once (w : SellWorld) (holder : Nat)
    (hglobal : w.globalAccountFound = true) (hholder : w.firstHolder = some holder)
    (hsafe : ∀ a ∈ w.tokenAccounts, ∀ b, a.amount = some b → b < 2 ^ 53)
    (hsend : ∀ j, w.sendFails j = false) :
    sellAllTokens w = (expectedSells 0 w.tokenAccounts, .ok ()) := by
  rw [sellAllTokens_eq_sellLoop w holder hglobal hholder]
  exact sellLoop_no_failure w.sendFails hsend w.tokenAccounts 0 hsafe

/-- The balances 5000 and 0 are below `2 ^ 53`. -/
theorem nonzero_and_zero_safe :
    ∀ a ∈ ([⟨some 5000⟩, ⟨some 0⟩] : List TokenAccount), ∀ b, a.amount = some b →
      b < 2 ^ 53 := by
  intro a ha b hb
  simp at ha
  rcases ha with rfl | rfl <;> simp at hb <;> omega

/-- Instance of the amended C5 at balances 5000 and 0: exactly one submission, of 4000. -/
theorem sellAllTokens_sells_each_nonzero_once_witness :
    (∀ a ∈ ([⟨some 5000⟩, ⟨some 0⟩] : List TokenAccount), ∀ b, a.amount = some b →
      b < 2 ^ 53) ∧
    expectedSells 0 [⟨some 5000⟩, ⟨some 0⟩] = [⟨0, ⟨4000, 0⟩, true⟩] ∧
    sellAllTokens ⟨[⟨some 5000⟩, ⟨some 0⟩], true, some 1, fun _ => false⟩ =
      (expectedSells 0 [⟨some 5000⟩, ⟨some 0⟩], .ok ()) :=
  ⟨nonzero_and_zero_safe, by decide,
    sellAllTokens_sells_each_nonzero_once
      ⟨[⟨some 5000⟩, ⟨some 0⟩], true, some 1, fun _ => false⟩ 1 rfl rfl
      nonzero_and_zero_safe (fun _ => rfl)⟩

/-! ## Properties of `buyTokens` and of the price -/

/-- C7 (as stated, refuted): with virtual reserves `R_sol = 1`, `R_tok = 1` of
a curve that is not complete and the spend 20000000 used by `buyTokens`, the
price is `1 - floor(1 / 20000001) = 1`, which is not strictly below `R_tok`. -/
theorem getBuyPrice_can_equal_token_reserve :
    ¬ (∀ (a : BondingCurveAccount) (spend : Nat),
      0 < a.virtualSolReserves → a.virtualSolReserves < 2 ^ 64 →
      0 < a.virtualTokenReserves → a.virtualTokenReserves < 2 ^ 64 →
      a.complete = false → 0 < spend →
      ∃ r : Int, a.getBuyPrice spend = .ok r ∧
        r = (a.virtualTokenReserves : Int) -
          ((a.virtualSolReserves * a.virtualTokenReserves /
            (a.virtualSolReserves + spend) : Nat) : Int) ∧
        0 ≤ r ∧ r < a.virtualTokenReserves) := by
  intro h
  obtain ⟨r, hr, _, _, hlt⟩ := h ⟨1, 1, 0, 0, 0, false⟩ 20000000
    (by decide) (by decide) (by decide) (by decide) rfl (by decide)
  have hval : BondingCurveAccount.getBuyPrice ⟨1, 1, 0, 0, 0, false⟩ 20000000 = .ok 1 := by
    decide
  rw [hval] at hr
  have hr1 : (1 : Int) = r := by injection hr
  subst hr1
  simp at hlt

/-- C7 (amended): for all positive virtual reserves `R_sol` and `R_tok` of a
curve that is not complete and every spend `δ > 0`, the price is
`R_tok - floor(R_sol * R_tok / (R_sol + δ))` in exact integer arithmetic, and
that result `r` satisfies `0 < r ≤ R_tok`; it is strictly below `R_tok`
exactly when `R_sol + δ ≤ R_sol * R_tok`. -/
theorem getBuyPrice_bounds (a : BondingCurveAccount) (spend : Nat)
    (hsol : 0 < a.virtualSolReserves) (htok : 0 < a.virtualTokenReserves)
    (hopen : a.complete = false) (hspend : 0 < spend) :
    ∃ r : Int, a.getBuyPrice spend = .ok r ∧
      r = (a.virtualTokenReserves : Int) -
        ((a.virtualSolReserves * a.virtualTokenReserves /
          (a.virtualSolReserves + spend) : Nat) : Int) ∧
      0 < r ∧ r ≤ a.virtualTokenReserves ∧
      (r < a.virtualTokenReserves ↔
        a.virtualSolReserves + spend ≤ a.virtualSolReserves * a.virtualTokenReserves) := by
  have hne : ¬ (a.virtualSolReserves = 0 ∨ a.virtualTokenReserves = 0 ∨ a.complete = true) := by
    rintro (h | h | h)
    · omega
    · omega
    · rw [hopen] at h; exact Bool.noConfusion h
  have hden : 0 < a.virtualSolReserves + spend := by omega
  have hq : a.virtualSolReserves * a.virtualTokenReserves / (a.virtualSolReserves + spend) <
      a.virtualTokenReserves := by
    rw [Nat.div_lt_iff_lt_mul hden]
    have : a.virtualTokenReserves * (a.virtualSolReserves + spend) =
        a.virtualSolReserves * a.virtualTokenReserves + a.virtualTokenReserves * spend := by
      ring
    rw [this]
    have : 0 < a.virtualTokenReserves * spend := Nat.mul_pos htok hspend
    omega
  have hpos : 1 ≤ a.virtualSolReserves * a.virtualTokenReserves / (a.virtualSolReserves + spend) ↔
      a.virtualSolReserves + spend ≤ a.virtualSolReserves * a.virtualTokenReserves := by
    rw [Nat.le_div_iff_mul_le hden, Nat.one_mul]
  refine ⟨_, ?_, rfl, ?_, ?_, ?_⟩
  · unfold BondingCurveAccount.getBuyPrice
    rw [if_neg hne]
  all_goals
    generalize a.virtualSolReserves * a.virtualTokenReserves /
      (a.virtualSolReserves + spend) = q at hq hpos ⊢
  · omega
  · omega
  · rw [← hpos]
    omega

/-- Instance of the amended C7 at the reserves of the example of the specification. -/
theorem getBuyPrice_bounds_witness :
    ∃ r : Int,
      BondingCurveAccount.getBuyPrice ⟨1073000000000000, 30000000000, 0, 0, 0, false⟩ 20000000 =
        .ok r ∧
      r = ((1073000000000000 : Nat) : Int) -
        ((30000000000 * 1073000000000000 / (30000000000 + 20000000) : Nat) : Int) ∧
      0 < r ∧ r ≤ (1073000000000000 : Nat) ∧
      (r < (1073000000000000 : Nat) ↔
        30000000000 + 20000000 ≤ 30000000000 * 1073000000000000) :=
  getBuyPrice_bounds ⟨1073000000000000, 30000000000, 0, 0, 0, false⟩ 20000000
    (by decide) (by decide) rfl (by decide)

/-- C9: evaluation of lines 172-173 and 209. The spend `solAmount` is exactly
20000000 lamports (the binary64 product `0.020 * LAMPORTS_PER_SOL` is the
integer 20000000), but `solAmountBN` is built from the string
`"20000000" + 20000 = "2000000020000"`: the maximum cost passed to the buy
instruction is 2000000020000 lamports, not 20020000. -/
theorem buyTokens_max_cost_is_concatenation :
    lamportsScaled % 2 ^ 58 = 0 ∧ lamports = 20000000 ∧ solAmount = 20000000 ∧
    solAmountBN = 2000000020000 ∧ solAmountBN ≠ solAmount + 20000 ∧
    buyTokens ⟨some ⟨1073000000000000, 30000000000, 0, 0, 0, false⟩, some 1, true, .ok 7⟩ =
      (some ⟨714856762159, 2000000020000⟩, .ok 7) := by
  decide

end BuyBotSol
